import Mathlib

/-!
Shallow embedding of the `SecureRng` generator from `src/main2.rs`.

The generator owns a byte pool (`buffer : Vec<u8>`) and a read cursor
(`position : usize`).  Bytes are modelled as natural numbers, machine
integers as `Nat` (the `u32` arithmetic in the source never overflows:
`max - min`, `min + v % range` and `u32::MAX - (u32::MAX % range)` all
stay below `2^32`, and `position + n` stays far below `usize::MAX`).

The OS entropy source (`get_random_bytes`, which fills the whole 1024-byte
resized buffer via `read_exact` or fails with an I/O error) is modelled as
an oracle `EntropySrc : Nat → Option (List Nat)` giving the block read by
the k-th invocation (`none` = I/O failure).  The state carries `refills`,
the number of entropy-source invocations so far, so that "the entropy
source is never invoked" is expressible as state equality.

Rust panics (the out-of-bounds slice `buffer[position..position + n]`) are
modelled by a dedicated `Outcome.panic` constructor; the unbounded `loop`s
in `gen_range` and `next_nonzero_u32` take a fuel parameter, with
`Outcome.spin` meaning the fuel ran out while the loop was still running.
-/

namespace RNG

/-- Pool capacity: `Vec::with_capacity(1024)` / `resize(1024, 0)`. -/
def POOL_CAP : Nat := 1024

/-- Per-call request cap: `1024 * 1024` bytes (1 MiB). -/
def MAX_REQUEST : Nat := 1024 * 1024

/-- `u32::MAX = 2^32 - 1`. -/
def u32MAX : Nat := 2 ^ 32 - 1

/-- The error enum `RngError` of `src/main2.rs` (the `io::Error` payload is
dropped).  `EntropyError` is the variant returned on an invalid range,
`BufferTooLarge` on an oversized request; they realise the spec's
`InvalidRange` and `RequestTooLarge` conditions. -/
inductive RngError where
  | IoError : RngError
  | EntropyError : RngError
  | BufferTooLarge : RngError
deriving DecidableEq, Repr

/-- The generator state: pool, cursor, and the count of entropy-source
invocations performed so far (model bookkeeping for "no draw happened"). -/
structure SecureRng where
  buffer : List Nat
  position : Nat
  refills : Nat
deriving DecidableEq, Repr

/-- `SecureRng::new()`: empty pool (capacity is not content), cursor 0. -/
def SecureRng.new : SecureRng := ⟨[], 0, 0⟩

/-- Entropy oracle: the block delivered by the k-th call to
`get_random_bytes`, or `none` for an OS-level failure. -/
def EntropySrc : Type := Nat → Option (List Nat)

/-- Result of an operation on the generator: a value with the new state, an
error with the state at the moment of the early return, a panic (Rust
out-of-bounds slice) with the state at the panic site, or fuel exhaustion
of a modelled `loop`. -/
inductive Outcome (α : Type) where
  | ok : α → SecureRng → Outcome α
  | err : RngError → SecureRng → Outcome α
  | panic : SecureRng → Outcome α
  | spin : SecureRng → Outcome α
deriving DecidableEq, Repr

/-- The generator state an outcome leaves behind. -/
def Outcome.state {α : Type} : Outcome α → SecureRng
  | .ok _ s => s
  | .err _ s => s
  | .panic s => s
  | .spin s => s

/-- `Vec::resize(n, 0)`: truncate to `n`, or pad with zero bytes up to `n`. -/
def listResize (bs : List Nat) (n : Nat) : List Nat :=
  bs.take n ++ List.replicate (n - bs.length) 0

/-- The content of the 1024-byte buffer after `read_exact` filled it from
the source block `b` (a well-formed source delivers exactly 1024 bytes;
the normalisation makes the model total). -/
def readBlock (b : List Nat) : List Nat :=
  (b ++ List.replicate POOL_CAP 0).take POOL_CAP

/-- The tail of `fill_bytes` after any refill: the slice
`buffer[position .. position + n]` copied out and the cursor advanced, or a
panic when the slice end exceeds the buffer length. -/
def serve (s : SecureRng) (n : Nat) : Outcome (List Nat) :=
  if s.position + n ≤ s.buffer.length then
    .ok ((s.buffer.drop s.position).take n) { s with position := s.position + n }
  else .panic s

/-- `SecureRng::fill_bytes`: reject requests over 1 MiB; refill (resize to
1024, reset cursor, re-read the whole pool) when `position + n` exceeds the
buffer length; then copy `n` bytes from the cursor and advance it. -/
def fill_bytes (src : EntropySrc) (s : SecureRng) (n : Nat) : Outcome (List Nat) :=
  if MAX_REQUEST < n then .err .BufferTooLarge s
  else if s.buffer.length < s.position + n then
    match src s.refills with
    | none => .err .IoError ⟨listResize s.buffer POOL_CAP, 0, s.refills + 1⟩
    | some b => serve ⟨readBlock b, 0, s.refills + 1⟩ n
  else serve s n

/-- `u32::from_ne_bytes` on a 4-byte little-endian buffer (the source uses
native order; any fixed order gives the same theorems). -/
def bytesToU32 : List Nat → Nat
  | [b0, b1, b2, b3] => b0 + 2 ^ 8 * b1 + 2 ^ 16 * b2 + 2 ^ 24 * b3
  | _ => 0

/-- `SecureRng::next_u32`: draw 4 bytes and reassemble. -/
def next_u32 (src : EntropySrc) (s : SecureRng) : Outcome Nat :=
  match fill_bytes src s 4 with
  | .ok out s' => .ok (bytesToU32 out) s'
  | .err e s' => .err e s'
  | .panic s' => .panic s'
  | .spin s' => .spin s'

/-- `u32::MAX - (u32::MAX % range)`: the rejection threshold of
`gen_range` (the largest multiple of `range` not exceeding `u32::MAX`). -/
def usableBound (range : Nat) : Nat := u32MAX - u32MAX % range

/-- The rejection test of `gen_range`:
`value >= u32::MAX - (u32::MAX % range)`. -/
def rejectsDraw (range v : Nat) : Bool := decide (usableBound range ≤ v)

/-- The `loop` body of `gen_range`, with fuel: draw, redraw on rejection,
otherwise return `min + (value % range)`. -/
def genRangeLoop (src : EntropySrc) (range mn : Nat) : Nat → SecureRng → Outcome Nat
  | 0, s => .spin s
  | fuel + 1, s =>
    match next_u32 src s with
    | .ok v s' =>
      if rejectsDraw range v then genRangeLoop src range mn fuel s'
      else .ok (mn + v % range) s'
    | .err e s' => .err e s'
    | .panic s' => .panic s'
    | .spin s' => .spin s'

/-- `SecureRng::gen_range(min, max)`: error on `min >= max`, otherwise run
the rejection loop with `range = max - min`. -/
def gen_range (src : EntropySrc) (fuel : Nat) (s : SecureRng) (mn mx : Nat) : Outcome Nat :=
  if mx ≤ mn then .err .EntropyError s
  else genRangeLoop src (mx - mn) mn fuel s

/-- The `loop` of `SecureRng::next_nonzero_u32`, with fuel: redraw while
the value is zero. -/
def next_nonzero_u32 (src : EntropySrc) : Nat → SecureRng → Outcome Nat
  | 0, s => .spin s
  | fuel + 1, s =>
    match next_u32 src s with
    | .ok v s' => if v = 0 then next_nonzero_u32 src fuel s' else .ok v s'
    | .err e s' => .err e s'
    | .panic s' => .panic s'
    | .spin s' => .spin s'

/-- The k-th value produced by iterating `next_u32` from state `s` (the
sequence of draws the retry loops consume). -/
def iterDraw (src : EntropySrc) : Nat → SecureRng → Outcome Nat
  | 0, s => next_u32 src s
  | k + 1, s =>
    match next_u32 src s with
    | .ok _ s' => iterDraw src k s'
    | .err e s' => .err e s'
    | .panic s' => .panic s'
    | .spin s' => .spin s'

/-- The state effect of `SecureRng::gen_normal`: two `next_u32` draws (the
Box–Muller floating-point arithmetic is outside the integer embedding; its
exact-rational scaling step is `normalU`). -/
def gen_normal_draws (src : EntropySrc) (s : SecureRng) : Outcome (Nat × Nat) :=
  match next_u32 src s with
  | .ok v1 s1 =>
    match next_u32 src s1 with
    | .ok v2 s2 => .ok (v1, v2) s2
    | .err e s2 => .err e s2
    | .panic s2 => .panic s2
    | .spin s2 => .spin s2
  | .err e s1 => .err e s1
  | .panic s1 => .panic s1
  | .spin s1 => .spin s1

/-- The uniform scaling of `gen_normal`,
`self.next_u32()? as f64 / u32::MAX as f64`, over exact rationals:
`v / (2^32 - 1)`. -/
def normalU (v : Nat) : ℚ := (v : ℚ) / ((2 : ℚ) ^ 32 - 1)

/-- The cursor invariant of the pool: `0 ≤ position ≤ len(buffer)` (the
lower bound is inherent to `Nat`). -/
def Inv (s : SecureRng) : Prop := s.position ≤ s.buffer.length

/-- All-zero 1024-byte entropy block. -/
def zeroBlock : List Nat := List.replicate 1024 0

/-- Entropy source that always delivers the all-zero block. -/
def srcZero : EntropySrc := fun _ => some zeroBlock

/-- 1024-byte entropy block whose first byte is 1 (so every `next_u32`
draw that starts a refill reads the value 1). -/
def oneBlock : List Nat := 1 :: List.replicate 1023 0

/-- Entropy source that always delivers `oneBlock`. -/
def srcOne : EntropySrc := fun _ => some oneBlock

lemma readBlock_length (b : List Nat) : (readBlock b).length = POOL_CAP := by
  simp [readBlock]

lemma readBlock_of_length (b : List Nat) (hb : b.length = POOL_CAP) :
    readBlock b = b := by
  unfold readBlock
  rw [← hb]
  exact List.take_left b _

lemma serve_ne_err (s : SecureRng) (n : Nat) (e : RngError) (s' : SecureRng) :
    serve s n ≠ .err e s' := by
  unfold serve
  split <;> simp

lemma serve_state_inv (s : SecureRng) (n : Nat) (h : Inv s) :
    Inv (serve s n).state := by
  unfold serve
  split
  next h2 => simpa [Outcome.state, Inv] using h2
  next => exact h

lemma fill_bytes_inv (src : EntropySrc) (s : SecureRng) (n : Nat) (h : Inv s) :
    Inv (fill_bytes src s n).state := by
  unfold fill_bytes
  split
  · exact h
  split
  · cases hsrc : src s.refills with
    | none => simp [Outcome.state, Inv]
    | some b =>
      apply serve_state_inv
      simp [Inv]
  · exact serve_state_inv s n h

lemma next_u32_state (src : EntropySrc) (s : SecureRng) :
    (next_u32 src s).state = (fill_bytes src s 4).state := by
  unfold next_u32
  cases fill_bytes src s 4 <;> rfl

lemma next_u32_inv (src : EntropySrc) (s : SecureRng) (h : Inv s) :
    Inv (next_u32 src s).state := by
  rw [next_u32_state]
  exact fill_bytes_inv src s 4 h

lemma next_u32_ok_inv (src : EntropySrc) (s : SecureRng) (v : Nat) (s' : SecureRng)
    (h : Inv s) (hk : next_u32 src s = .ok v s') : Inv s' := by
  have h2 := next_u32_inv src s h
  rw [hk] at h2
  exact h2

/-- C10: `fill_bytes` on an empty request is a no-op: it succeeds, performs
no refill and no entropy-source call, and returns the state unchanged
(including on the freshly constructed generator with its empty pool). -/
theorem fillBytes_zero_noop (src : EntropySrc) (s : SecureRng) (h : Inv s) :
    fill_bytes src s 0 = .ok [] s := by
  unfold fill_bytes
  rw [if_neg (by simp [MAX_REQUEST]), if_neg (by simp [Inv] at h; omega)]
  unfold serve
  rw [if_pos (by simpa [Inv] using h)]
  cases s
  simp

/-- Witness for C10 at the freshly constructed generator. -/
theorem fillBytes_zero_noop_witness :
    Inv SecureRng.new ∧ fill_bytes srcOne SecureRng.new 0 = .ok [] SecureRng.new :=
  ⟨Nat.le_refl 0, fillBytes_zero_noop srcOne SecureRng.new (Nat.le_refl 0)⟩

/-- C5: `gen_range(min, max)` with `min >= max` fails immediately with the
invalid-range error (the `EntropyError` variant realises the spec's
`InvalidRange`), leaving the state — pool, cursor and entropy-invocation
count — unchanged, so the entropy source is never invoked. -/
theorem genRange_invalid_range (src : EntropySrc) (fuel : Nat) (s : SecureRng)
    (mn mx : Nat) (h : mx ≤ mn) :
    gen_range src fuel s mn mx = .err .EntropyError s := by
  unfold gen_range
  rw [if_pos h]

/-- Witness for C5 at `gen_range(5, 5)`. -/
theorem genRange_invalid_range_witness :
    (5 : Nat) ≤ 5 ∧ gen_range srcOne 3 SecureRng.new 5 5 = .err .EntropyError SecureRng.new :=
  ⟨Nat.le_refl 5, genRange_invalid_range srcOne 3 SecureRng.new 5 5 (Nat.le_refl 5)⟩

/-- C6: a request strictly over 1 MiB fails with the oversize error (the
`BufferTooLarge` variant realises the spec's `RequestTooLarge`) with the
state — pool, cursor, entropy-invocation count — unchanged, independent of
pool capacity; a request of exactly 1 MiB is never rejected by this cap. -/
theorem fillBytes_cap :
    (∀ (src : EntropySrc) (s : SecureRng) (n : Nat), MAX_REQUEST < n →
      fill_bytes src s n = .err .BufferTooLarge s) ∧
    (∀ (src : EntropySrc) (s s' : SecureRng),
      fill_bytes src s MAX_REQUEST ≠ .err .BufferTooLarge s') := by
  constructor
  · intro src s n h
    unfold fill_bytes
    rw [if_pos h]
  · intro src s s'
    unfold fill_bytes
    rw [if_neg (by omega)]
    split
    · cases hsrc : src s.refills with
      | none => simp
      | some b => exact serve_ne_err _ _ _ _
    · exact serve_ne_err _ _ _ _

/-- Witness for C6 at 1 MiB + 1 and at exactly 1 MiB. -/
theorem fillBytes_cap_witness :
    MAX_REQUEST < 1024 * 1024 + 1 ∧
    fill_bytes srcOne SecureRng.new (1024 * 1024 + 1) = .err .BufferTooLarge SecureRng.new ∧
    fill_bytes srcOne SecureRng.new MAX_REQUEST ≠ .err .BufferTooLarge SecureRng.new :=
  ⟨by decide,
   fillBytes_cap.1 srcOne SecureRng.new (1024 * 1024 + 1) (by decide),
   fillBytes_cap.2 srcOne SecureRng.new SecureRng.new⟩

/-- C3: a request with `1024 < n <= 1 MiB` passes the size cap, triggers
only a 1024-byte refill (buffer = the 1024-byte source block, cursor reset
to 0), and then the slice `buffer[0 .. n]` into the 1024-byte pool is out
of bounds: the out-of-bounds/panic branch is reached, never the success
branch. -/
theorem fillBytes_oversize_panics (src : EntropySrc) (s : SecureRng) (n : Nat)
    (b : List Nat) (h1 : POOL_CAP < n) (h2 : n ≤ MAX_REQUEST)
    (h3 : s.buffer.length ≤ POOL_CAP) (h4 : src s.refills = some b)
    (h5 : b.length = POOL_CAP) :
    fill_bytes src s n = .panic ⟨b, 0, s.refills + 1⟩ := by
  unfold fill_bytes
  rw [if_neg (by omega), if_pos (by omega), h4]
  show serve ⟨readBlock b, 0, s.refills + 1⟩ n = _
  rw [readBlock_of_length b h5]
  unfold serve
  rw [if_neg (by simp [h5]; omega)]

/-- C2: with `n` within the 1 MiB cap, a full refill happens exactly when
the unread remainder `len(pool) - cursor` is smaller than `n` (first
conjunct: enough remains, so the pool, the entropy-invocation count and
everything but the cursor stay put; second conjunct: too little remains,
so the pool is re-read from the source and the cursor reset to 0 before
serving); in either case the successful call returns the `n` bytes at the
cursor and advances the cursor by exactly `n`. -/
theorem fillBytes_refill_policy (src : EntropySrc) (s : SecureRng) (n : Nat) (b : List Nat)
    (hcap : n ≤ MAX_REQUEST) (hsrc : src s.refills = some b) (hb : b.length = POOL_CAP)
    (hinv : Inv s) :
    (n ≤ s.buffer.length - s.position →
      fill_bytes src s n =
        .ok ((s.buffer.drop s.position).take n) { s with position := s.position + n }) ∧
    (s.buffer.length - s.position < n → n ≤ POOL_CAP →
      fill_bytes src s n = .ok (b.take n) ⟨b, n, s.refills + 1⟩) := by
  have hps : s.position ≤ s.buffer.length := hinv
  constructor
  · intro hrem
    unfold fill_bytes
    rw [if_neg (by omega), if_neg (by omega)]
    unfold serve
    rw [if_pos (by omega)]
  · intro hrem hle
    unfold fill_bytes
    rw [if_neg (by omega), if_pos (by omega), hsrc]
    show serve ⟨readBlock b, 0, s.refills + 1⟩ n = _
    rw [readBlock_of_length b hb]
    unfold serve
    rw [if_pos (by show 0 + n ≤ b.length; rw [hb]; omega)]
    simp

set_option maxRecDepth 10000 in
/-- Witness for C2: a 4-byte draw on the fresh generator refills; a second
4-byte draw is served from the remainder. -/
theorem fillBytes_refill_policy_witness :
    fill_bytes srcOne SecureRng.new 4 = .ok (oneBlock.take 4) ⟨oneBlock, 4, 1⟩ ∧
    fill_bytes srcOne ⟨oneBlock, 4, 1⟩ 4 =
      .ok ((oneBlock.drop 4).take 4) ⟨oneBlock, 8, 1⟩ :=
  ⟨(fillBytes_refill_policy srcOne SecureRng.new 4 oneBlock (by decide) rfl (by decide)
      (Nat.le_refl 0)).2 (by decide) (by decide),
   (fillBytes_refill_policy srcOne ⟨oneBlock, 4, 1⟩ 4 oneBlock (by decide) rfl (by decide)
      (by unfold Inv; decide)).1 (by decide)⟩

lemma genRangeLoop_ok_bound (src : EntropySrc) (range mn : Nat) (hr : 0 < range) :
    ∀ fuel s r s', genRangeLoop src range mn fuel s = .ok r s' → mn ≤ r ∧ r < mn + range := by
  intro fuel
  induction fuel with
  | zero =>
    intro s r s' h
    simp [genRangeLoop] at h
  | succ k ih =>
    intro s r s' h
    cases hnext : next_u32 src s with
    | ok v t =>
      simp only [genRangeLoop, hnext] at h
      by_cases hrej : rejectsDraw range v
      · rw [if_pos hrej] at h
        exact ih t r s' h
      · rw [if_neg hrej] at h
        injection h with h1 h2
        have hm := Nat.mod_lt v hr
        omega
    | err e t => simp [genRangeLoop, hnext] at h
    | panic t => simp [genRangeLoop, hnext] at h
    | spin t => simp [genRangeLoop, hnext] at h

/-- C4: whenever `gen_range(min, max)` with `min < max` returns a value
`r`, it lies in the half-open interval: `min <= r < max`. -/
theorem genRange_in_range (src : EntropySrc) (fuel : Nat) (s : SecureRng) (mn mx r : Nat)
    (s' : SecureRng) (hlt : mn < mx) (h : gen_range src fuel s mn mx = .ok r s') :
    mn ≤ r ∧ r < mx := by
  unfold gen_range at h
  rw [if_neg (by omega)] at h
  have hb := genRangeLoop_ok_bound src (mx - mn) mn (by omega) fuel s r s' h
  omega

set_option maxRecDepth 10000 in
/-- Witness for C4: `gen_range(5, 10)` on the fresh generator with the
all-ones-then-zeros source returns 6, and 5 ≤ 6 < 10. -/
theorem genRange_in_range_witness :
    (5 : Nat) < 10 ∧ gen_range srcOne 1 SecureRng.new 5 10 = .ok 6 ⟨oneBlock, 4, 1⟩ ∧
    (5 ≤ 6 ∧ 6 < 10) :=
  ⟨by decide, by decide,
   genRange_in_range srcOne 1 SecureRng.new 5 10 6 ⟨oneBlock, 4, 1⟩ (by decide) (by decide)⟩

set_option maxRecDepth 10000 in
/-- Witness for C3: a 2000-byte request on the fresh generator panics. -/
theorem fillBytes_oversize_panics_witness :
    POOL_CAP < 2000 ∧ (2000 : Nat) ≤ MAX_REQUEST ∧
    fill_bytes srcOne SecureRng.new 2000 = .panic ⟨oneBlock, 0, 1⟩ :=
  ⟨by decide, by decide,
   fillBytes_oversize_panics srcOne SecureRng.new 2000 oneBlock (by decide) (by decide)
     (by decide) rfl (by decide)⟩

lemma genRangeLoop_inv (src : EntropySrc) (range mn : Nat) :
    ∀ fuel s, Inv s → Inv (genRangeLoop src range mn fuel s).state := by
  intro fuel
  induction fuel with
  | zero =>
    intro s h
    simpa [genRangeLoop, Outcome.state] using h
  | succ k ih =>
    intro s h
    have h2 := next_u32_inv src s h
    cases hnext : next_u32 src s with
    | ok v t =>
      rw [hnext] at h2
      by_cases hrej : rejectsDraw range v
      · simpa [genRangeLoop, hnext, hrej] using ih t h2
      · simpa [genRangeLoop, hnext, hrej, Outcome.state] using h2
    | err e t =>
      rw [hnext] at h2
      simpa [genRangeLoop, hnext, Outcome.state] using h2
    | panic t =>
      rw [hnext] at h2
      simpa [genRangeLoop, hnext, Outcome.state] using h2
    | spin t =>
      rw [hnext] at h2
      simpa [genRangeLoop, hnext, Outcome.state] using h2

lemma gen_range_inv (src : EntropySrc) (fuel : Nat) (s : SecureRng) (mn mx : Nat)
    (h : Inv s) : Inv (gen_range src fuel s mn mx).state := by
  unfold gen_range
  split
  · exact h
  · exact genRangeLoop_inv src (mx - mn) mn fuel s h

lemma next_nonzero_inv (src : EntropySrc) :
    ∀ fuel s, Inv s → Inv (next_nonzero_u32 src fuel s).state := by
  intro fuel
  induction fuel with
  | zero =>
    intro s h
    simpa [next_nonzero_u32, Outcome.state] using h
  | succ k ih =>
    intro s h
    have h2 := next_u32_inv src s h
    cases hnext : next_u32 src s with
    | ok v t =>
      rw [hnext] at h2
      by_cases hv : v = 0
      · simpa [next_nonzero_u32, hnext, hv] using ih t h2
      · simpa [next_nonzero_u32, hnext, hv, Outcome.state] using h2
    | err e t =>
      rw [hnext] at h2
      simpa [next_nonzero_u32, hnext, Outcome.state] using h2
    | panic t =>
      rw [hnext] at h2
      simpa [next_nonzero_u32, hnext, Outcome.state] using h2
    | spin t =>
      rw [hnext] at h2
      simpa [next_nonzero_u32, hnext, Outcome.state] using h2

lemma gen_normal_draws_inv (src : EntropySrc) (s : SecureRng) (h : Inv s) :
    Inv (gen_normal_draws src s).state := by
  have h1 := next_u32_inv src s h
  unfold gen_normal_draws
  cases hn1 : next_u32 src s with
  | ok v1 s1 =>
    rw [hn1] at h1
    have h2 := next_u32_inv src s1 h1
    cases hn2 : next_u32 src s1 with
    | ok v2 s2 =>
      rw [hn2] at h2
      simpa [hn2, Outcome.state] using h2
    | err e s2 =>
      rw [hn2] at h2
      simpa [hn2, Outcome.state] using h2
    | panic s2 =>
      rw [hn2] at h2
      simpa [hn2, Outcome.state] using h2
    | spin s2 =>
      rw [hn2] at h2
      simpa [hn2, Outcome.state] using h2
  | err e s1 =>
    rw [hn1] at h1
    simpa [Outcome.state] using h1
  | panic s1 =>
    rw [hn1] at h1
    simpa [Outcome.state] using h1
  | spin s1 =>
    rw [hn1] at h1
    simpa [Outcome.state] using h1

/-- C9: the cursor invariant `0 <= cursor <= len(pool)` (the lower bound
holds inherently over `Nat`) is true of the freshly constructed generator
and is preserved by every operation — `fill_bytes`, `next_u32`,
`gen_range`, the draw pair of `gen_normal`, `next_nonzero_u32` — on every
outcome, success, error, panic or fuel exhaustion alike. -/
theorem cursor_invariant_preserved :
    Inv SecureRng.new ∧
    (∀ (src : EntropySrc) (s : SecureRng) (n : Nat), Inv s →
      Inv (fill_bytes src s n).state) ∧
    (∀ (src : EntropySrc) (s : SecureRng), Inv s → Inv (next_u32 src s).state) ∧
    (∀ (src : EntropySrc) (fuel : Nat) (s : SecureRng) (mn mx : Nat), Inv s →
      Inv (gen_range src fuel s mn mx).state) ∧
    (∀ (src : EntropySrc) (s : SecureRng), Inv s → Inv (gen_normal_draws src s).state) ∧
    (∀ (src : EntropySrc) (fuel : Nat) (s : SecureRng), Inv s →
      Inv (next_nonzero_u32 src fuel s).state) :=
  ⟨Nat.le_refl 0, fill_bytes_inv, next_u32_inv,
   fun src fuel s mn mx h => gen_range_inv src fuel s mn mx h,
   gen_normal_draws_inv,
   fun src fuel s h => next_nonzero_inv src fuel s h⟩

/-- Witness for C9: the invariant holds after concrete calls on the fresh
generator. -/
theorem cursor_invariant_preserved_witness :
    Inv SecureRng.new ∧
    Inv (fill_bytes srcOne SecureRng.new 4).state ∧
    Inv (gen_range srcOne 1 SecureRng.new 5 10).state ∧
    Inv (next_nonzero_u32 srcOne 1 SecureRng.new).state :=
  ⟨cursor_invariant_preserved.1,
   cursor_invariant_preserved.2.1 srcOne SecureRng.new 4 cursor_invariant_preserved.1,
   cursor_invariant_preserved.2.2.2.1 srcOne 1 SecureRng.new 5 10
     cursor_invariant_preserved.1,
   cursor_invariant_preserved.2.2.2.2.2 srcOne 1 SecureRng.new
     cursor_invariant_preserved.1⟩

/-- C7: every value `next_nonzero_u32` returns is nonzero (the loop
discards 0 and redraws, with no retry cap), and the loop terminates as
soon as the underlying draw sequence yields a nonzero value: if the k-th
iterated `next_u32` draw is nonzero, fuel `k + 1` already suffices for the
loop to return successfully. -/
theorem nextNonzero_spec :
    (∀ (src : EntropySrc) (fuel : Nat) (s : SecureRng) (v : Nat) (s' : SecureRng),
      next_nonzero_u32 src fuel s = .ok v s' → v ≠ 0) ∧
    (∀ (src : EntropySrc) (k : Nat) (s : SecureRng) (v : Nat) (s' : SecureRng),
      iterDraw src k s = .ok v s' → v ≠ 0 →
      ∃ r s'', next_nonzero_u32 src (k + 1) s = .ok r s'') := by
  constructor
  · intro src fuel
    induction fuel with
    | zero =>
      intro s v s' h
      simp [next_nonzero_u32] at h
    | succ n ih =>
      intro s v s' h
      cases hnext : next_u32 src s with
      | ok w t =>
        simp only [next_nonzero_u32, hnext] at h
        by_cases hw : w = 0
        · rw [if_pos hw] at h
          exact ih t v s' h
        · rw [if_neg hw] at h
          injection h with h1 h2
          exact h1 ▸ hw
      | err e t => simp [next_nonzero_u32, hnext] at h
      | panic t => simp [next_nonzero_u32, hnext] at h
      | spin t => simp [next_nonzero_u32, hnext] at h
  · intro src k
    induction k with
    | zero =>
      intro s v s' h hv
      simp only [iterDraw] at h
      exact ⟨v, s', by simp [next_nonzero_u32, h, hv]⟩
    | succ n ih =>
      intro s v s' h hv
      cases hnext : next_u32 src s with
      | ok w t =>
        simp only [iterDraw, hnext] at h
        by_cases hw : w = 0
        · obtain ⟨r, s'', hr⟩ := ih t v s' h hv
          refine ⟨r, s'', ?_⟩
          rw [← hr]
          simp [next_nonzero_u32, hnext, hw]
        · exact ⟨w, t, by simp [next_nonzero_u32, hnext, hw]⟩
      | err e t => simp [iterDraw, hnext] at h
      | panic t => simp [iterDraw, hnext] at h
      | spin t => simp [iterDraw, hnext] at h

set_option maxRecDepth 10000 in
/-- Witness for C7: on the source whose blocks start with byte 1, the
first draw is 1, the loop with fuel 1 returns it, and it is nonzero. -/
theorem nextNonzero_spec_witness :
    next_nonzero_u32 srcOne 1 SecureRng.new = .ok 1 ⟨oneBlock, 4, 1⟩ ∧
    (1 : Nat) ≠ 0 ∧
    (∃ r s'', next_nonzero_u32 srcOne (0 + 1) SecureRng.new = .ok r s'') :=
  ⟨by decide,
   nextNonzero_spec.1 srcOne 1 SecureRng.new 1 ⟨oneBlock, 4, 1⟩ (by decide),
   nextNonzero_spec.2 srcOne 0 SecureRng.new 1 ⟨oneBlock, 4, 1⟩ (by decide) (by decide)⟩

set_option maxRecDepth 10000 in
/-- Counterexample to C8 as stated: the underlying draw 0 is possible (on
the all-zero source `gen_normal`'s two draws are both 0), and the scaled
value `0 / (2^32 - 1)` is 0 — not strictly positive, hence not in the
half-open interval (0, 1]. -/
theorem normalU_zero_counterexample :
    gen_normal_draws srcZero SecureRng.new = .ok (0, 0) ⟨zeroBlock, 8, 1⟩ ∧
    normalU 0 = 0 ∧ ¬ (0 < normalU 0 ∧ normalU 0 ≤ 1) := by
  refine ⟨by decide, by simp [normalU], ?_⟩
  simp [normalU]

/-- C8 amended: for every underlying 32-bit draw `v` (so `v ≤ u32::MAX`),
the scaled value `v / (2^32 - 1)` of `gen_normal` lies in the closed
interval [0, 1], and it is strictly positive exactly when the draw is
nonzero — the original (0, 1] bound fails only at `v = 0`. -/
theorem normalU_amended (v : Nat) (hv : v ≤ u32MAX) :
    (0 ≤ normalU v ∧ normalU v ≤ 1) ∧ (0 < normalU v ↔ 0 < v) := by
  have hd : (0 : ℚ) < (2 : ℚ) ^ 32 - 1 := by norm_num
  have hmax : ((u32MAX : Nat) : ℚ) = (2 : ℚ) ^ 32 - 1 := by
    have h1 : u32MAX = 4294967295 := by norm_num [u32MAX]
    rw [h1]
    norm_num
  have hcast : (v : ℚ) ≤ (2 : ℚ) ^ 32 - 1 := by
    rw [← hmax]
    exact_mod_cast hv
  refine ⟨⟨?_, ?_⟩, ?_, ?_⟩
  · exact div_nonneg (by positivity) (le_of_lt hd)
  · rw [normalU, div_le_one hd]
    exact hcast
  · intro h
    by_contra h0
    have hz : v = 0 := by omega
    rw [hz] at h
    simp [normalU] at h
  · intro h
    have hvq : (0 : ℚ) < (v : ℚ) := by exact_mod_cast h
    exact div_pos hvq hd

/-- Witness for C8 amended at the draw `v = 1`. -/
theorem normalU_amended_witness :
    (1 : Nat) ≤ u32MAX ∧
    ((0 ≤ normalU 1 ∧ normalU 1 ≤ 1) ∧ (0 < normalU 1 ↔ 0 < 1)) :=
  ⟨by decide, normalU_amended 1 (by decide)⟩

lemma usableBound_eq (range : Nat) : usableBound range = range * (u32MAX / range) := by
  have h := Nat.mod_add_div u32MAX range
  unfold usableBound
  omega

lemma filter_mod_card (s k r : Nat) (hs : 0 < s) (hr : r < s) :
    ((Finset.range (s * k)).filter (fun v => v % s = r)).card = k := by
  have himg : (Finset.range (s * k)).filter (fun v => v % s = r)
      = (Finset.range k).image (fun q => q * s + r) := by
    ext v
    simp only [Finset.mem_filter, Finset.mem_range, Finset.mem_image]
    constructor
    · rintro ⟨hv, hm⟩
      refine ⟨v / s, Nat.div_lt_of_lt_mul hv, ?_⟩
      calc v / s * s + r = s * (v / s) + v % s := by rw [Nat.mul_comm, hm]
        _ = v := Nat.div_add_mod v s
    · rintro ⟨q, hq, rfl⟩
      refine ⟨?_, ?_⟩
      · calc q * s + r < q * s + s := by omega
          _ = (q + 1) * s := by ring
          _ ≤ k * s := Nat.mul_le_mul_right s (by omega)
          _ = s * k := Nat.mul_comm k s
      · rw [Nat.mul_comm q s, Nat.mul_add_mod]
        exact Nat.mod_eq_of_lt hr
  have hinj : Function.Injective (fun q : Nat => q * s + r) := by
    intro a b hab
    simp only at hab
    exact Nat.eq_of_mul_eq_mul_right hs (Nat.add_right_cancel hab)
  rw [himg, Finset.card_image_of_injective _ hinj, Finset.card_range]

/-- C1: the rejection sampling of `gen_range` is exact.  (i) The threshold
`u32::MAX - (u32::MAX % span)` is the largest multiple of `span` not
exceeding `u32::MAX`.  (ii) A drawn value `v` is accepted — the loop
returns `min + (v % span)` — exactly when `v` is below that threshold, and
rejected values only cause a redraw.  (iii) Over the accepted subset of
the full 32-bit draw domain, every residue class mod `span` contains
exactly `(u32::MAX - (u32::MAX % span)) / span` values, so the modulo
reduction is unbiased. -/
theorem genRange_rejection_unbiased :
    (∀ range : Nat, 0 < range →
      range ∣ usableBound range ∧ usableBound range ≤ u32MAX ∧
      ∀ m, range ∣ m → m ≤ u32MAX → m ≤ usableBound range) ∧
    (∀ (src : EntropySrc) (fuel : Nat) (s s' : SecureRng) (v range mn : Nat),
      next_u32 src s = .ok v s' →
      (rejectsDraw range v = false →
        genRangeLoop src range mn (fuel + 1) s = .ok (mn + v % range) s') ∧
      (rejectsDraw range v = true →
        genRangeLoop src range mn (fuel + 1) s = genRangeLoop src range mn fuel s')) ∧
    (∀ (src : EntropySrc) (fuel : Nat) (s : SecureRng) (mn mx : Nat), mn < mx →
      gen_range src fuel s mn mx = genRangeLoop src (mx - mn) mn fuel s) ∧
    (∀ range r : Nat, 0 < range → r < range →
      ((Finset.range (2 ^ 32)).filter
        (fun v => rejectsDraw range v = false ∧ v % range = r)).card
        = usableBound range / range) := by
  refine ⟨?_, ?_, ?_, ?_⟩
  · intro range hr
    refine ⟨⟨u32MAX / range, usableBound_eq range⟩, Nat.sub_le _ _, ?_⟩
    rintro m ⟨t, rfl⟩ hm
    rw [usableBound_eq]
    exact Nat.mul_le_mul_left range
      ((Nat.le_div_iff_mul_le hr).2 (by rwa [Nat.mul_comm] at hm))
  · intro src fuel s s' v range mn hnext
    constructor
    · intro hrej
      simp [genRangeLoop, hnext, hrej]
    · intro hrej
      simp [genRangeLoop, hnext, hrej]
  · intro src fuel s mn mx hlt
    unfold gen_range
    rw [if_neg (by omega)]
  · intro range r hr hrr
    have hsub : (Finset.range (2 ^ 32)).filter
        (fun v => rejectsDraw range v = false ∧ v % range = r)
        = (Finset.range (usableBound range)).filter (fun v => v % range = r) := by
      ext v
      simp only [Finset.mem_filter, Finset.mem_range, rejectsDraw,
        decide_eq_false_iff_not, not_le]
      have hle : usableBound range ≤ u32MAX := Nat.sub_le _ _
      have h32 : u32MAX < 2 ^ 32 := by norm_num [u32MAX]
      constructor
      · rintro ⟨_, hv, hm⟩
        exact ⟨hv, hm⟩
      · rintro ⟨hv, hm⟩
        exact ⟨by omega, hv, hm⟩
    rw [hsub, usableBound_eq, filter_mod_card range (u32MAX / range) r hr hrr,
      Nat.mul_div_cancel_left _ hr]

set_option maxRecDepth 10000 in
/-- Witness for C1 at span 3 (which does not divide 2^32) and residue 1,
with the accepted draw 1 taken on the fresh generator. -/
theorem genRange_rejection_unbiased_witness :
    (0 < 3) ∧ next_u32 srcOne SecureRng.new = .ok 1 ⟨oneBlock, 4, 1⟩ ∧
    rejectsDraw 3 1 = false ∧ (1 : Nat) < 3 ∧ (5 : Nat) < 10 ∧
    ((3 ∣ usableBound 3 ∧ usableBound 3 ≤ u32MAX ∧
      ∀ m, 3 ∣ m → m ≤ u32MAX → m ≤ usableBound 3) ∧
     genRangeLoop srcOne 3 5 (0 + 1) SecureRng.new = .ok (5 + 1 % 3) ⟨oneBlock, 4, 1⟩ ∧
     gen_range srcOne 2 SecureRng.new 5 10 = genRangeLoop srcOne (10 - 5) 5 2 SecureRng.new ∧
     ((Finset.range (2 ^ 32)).filter
        (fun v => rejectsDraw 3 v = false ∧ v % 3 = 1)).card = usableBound 3 / 3) :=
  ⟨by decide, by decide, by decide, by decide, by decide,
   genRange_rejection_unbiased.1 3 (by decide),
   (genRange_rejection_unbiased.2.1 srcOne 0 SecureRng.new ⟨oneBlock, 4, 1⟩ 1 3 5
      (by decide)).1 (by decide),
   genRange_rejection_unbiased.2.2.1 srcOne 2 SecureRng.new 5 10 (by decide),
   genRange_rejection_unbiased.2.2.2 3 1 (by decide) (by decide)⟩

end RNG
